import Mathlib

/-! Verification development for the Renamer.go batch file-renaming utility.
The program is embedded shallowly: Go strings and paths become lists of
characters, the raw filesystem primitives become explicit oracles (the spec
treats them as an abstract capability), and every effectful call is recorded
in an ordered event trace together with the process-wide failure counter. -/

/-- Go strings are byte sequences; this development models them as lists of
characters (all inputs of interest are ASCII). -/
abbrev GoStr := List Char

/-- Embeds Go strings.TrimSuffix: drops the given suffix when it is present,
otherwise returns the string unchanged. -/
def trimSuffix (s suffix : GoStr) : GoStr :=
  if suffix.isSuffixOf s then s.take (s.length - suffix.length) else s

/-- Embeds Go strings.ToLower restricted to the ASCII casing rules (the spec
names Unicode-aware folding beyond the host default a non-goal). -/
def toLowerStr (s : GoStr) : GoStr := s.map Char.toLower

/-- Embeds Go strings.ToUpper restricted to the ASCII casing rules. -/
def toUpperStr (s : GoStr) : GoStr := s.map Char.toUpper

/-- Splits a path into the list of segments between path separators; a path
with n separators yields n+1 segments, so leading, trailing and doubled
separators yield empty segments. -/
def splitSeg : GoStr → List GoStr
  | [] => [[]]
  | c :: r =>
    if c = '/' then [] :: splitSeg r
    else
      match splitSeg r with
      | [] => [[c]]
      | s :: ss => (c :: s) :: ss

/-- Joins segments back with single separators; inverse of splitSeg. -/
def joinSegs : List GoStr → GoStr
  | [] => []
  | [s] => s
  | s :: ss => s ++ '/' :: joinSegs ss

/-- Stack pass of the Clean algorithm of Go path/filepath, in segment form:
empty and dot segments are dropped, a dotdot segment pops a previous plain
segment, is dropped at the root of a rooted path, and is kept otherwise. -/
def cleanSegs (rooted : Bool) : List GoStr → List GoStr → List GoStr
  | acc, [] => acc.reverse
  | acc, s :: ss =>
    if s = [] ∨ s = ['.'] then cleanSegs rooted acc ss
    else if s = ['.', '.'] then
      match acc with
      | [] => if rooted then cleanSegs rooted [] ss else cleanSegs rooted [s] ss
      | t :: acc2 =>
        if t = ['.', '.'] then
          (if rooted then cleanSegs rooted acc ss else cleanSegs rooted (s :: acc) ss)
        else cleanSegs rooted acc2 ss
    else cleanSegs rooted (s :: acc) ss

/-- Embeds Go path/filepath.Clean on slash-separated paths, following its
documented rules: replace multiple separators with one, eliminate each dot
segment, eliminate each inner dotdot segment together with the non-dotdot
segment before it, eliminate dotdot segments that begin a rooted path, and
return a single dot for an empty result. -/
def goClean (p : GoStr) : GoStr :=
  if p.isEmpty then ['.']
  else
    let rooted : Bool := match p with | '/' :: _ => true | _ => false
    let segs := cleanSegs rooted [] (splitSeg p)
    let out := (if rooted then ['/'] else []) ++ joinSegs segs
    if out.isEmpty then ['.'] else out

/-- Embeds Go path/filepath.Join on two elements: empty elements are ignored
and the slash-joined result is passed through Clean. -/
def goJoin (a b : GoStr) : GoStr :=
  if !a.isEmpty then goClean (a ++ '/' :: b)
  else if !b.isEmpty then goClean b
  else []

/-- Embeds Go path/filepath.Base: empty input yields a dot, trailing
separators are stripped, everything up to the last separator is dropped, and
an all-separator path yields a single separator. -/
def goBase (p : GoStr) : GoStr :=
  if p.isEmpty then ['.']
  else
    let q := (p.reverse.dropWhile (fun c => c == '/')).reverse
    let r := (q.reverse.takeWhile (fun c => c != '/')).reverse
    if r.isEmpty then ['/'] else r

/-- Embeds Go path/filepath.Dir: everything up to and including the last
separator, passed through Clean; a path with no separator yields a dot. -/
def goDir (p : GoStr) : GoStr :=
  goClean ((p.reverse.dropWhile (fun c => c != '/')).reverse)

/-- Helper for goExt: scans the reversed path from the front (the end of the
path), stopping at the first dot (returning the extension from that dot) or
at a separator or the start of the string (no extension). -/
def extFromRev : GoStr → Option GoStr
  | [] => none
  | c :: r =>
    if c == '/' then none
    else if c == '.' then some ['.']
    else (extFromRev r).map (fun e => e ++ [c])

/-- Embeds Go path/filepath.Ext: the suffix beginning at the final dot in the
final separator-delimited element of the path; empty when there is no dot. -/
def goExt (p : GoStr) : GoStr := (extFromRev p.reverse).getD []

/-- Embeds the Go format verb used by indexName, a decimal integer
zero-padded on the left to width three, the sign included in the width. -/
def pad3 (n : Int) : GoStr :=
  let mag := Nat.toDigits 10 n.natAbs
  let sign : GoStr := if n < 0 then ['-'] else []
  sign ++ List.replicate (3 - (sign.length + mag.length)) '0' ++ mag

/-- Observable effects of one run: diagnostics to the error stream, messages
to the output stream, filesystem mutations, and directory listings. -/
inductive Event where
  | errMsg (s : GoStr)
  | outMsg (s : GoStr)
  | created (p : GoStr)
  | renamed (o n : GoStr)
  | copied (o n : GoStr)
  | listed (d : GoStr)
  deriving DecidableEq

/-- Filesystem mutations are file creations, renames and copies; messages and
directory listings are not mutations. -/
def isMutation : Event → Bool
  | Event.created _ => true
  | Event.renamed _ _ => true
  | Event.copied _ _ => true
  | _ => false

/-- How a stage of the run ends: a normal return carrying the Go return value,
or the printUsage path, which prints the message plus the usage text on the
error stream and exits the process with code 2. -/
inductive Outcome where
  | normal (code : Int)
  | usage (msg : GoStr)
  deriving DecidableEq

/-- Outcome and observable effects of a run fragment: its ordered event
trace, the increments it adds to the process-wide failure counter
operationSuccessful, and how it ends. -/
structure RunResult where
  events : List Event
  failures : Nat
  outcome : Outcome
  deriving DecidableEq

/-- Oracle for the raw filesystem primitives used by writeFile, which the
spec scopes out as an abstract capability: whether a non-dereferencing stat
of a path succeeds (the path exists), and whether create, open, copy and
rename calls succeed. -/
structure WorldOps where
  lstatOk : GoStr → Bool
  createOk : GoStr → Bool
  openOk : GoStr → Bool
  copyOk : GoStr → GoStr → Bool
  renameOk : GoStr → GoStr → Bool

/-- Oracle for getFilesFromDir: given a directory path it returns the
sub-directories and the non-directory entries, already joined to absolute
paths, exactly as the Go function returns its two slices. -/
structure FS where
  list : GoStr → List GoStr × List GoStr

/-- The run configuration after flag parsing, one field per flag variable of
the Go program. -/
structure Config where
  regexpArg : GoStr
  prefixArg : GoStr
  suffixArg : GoStr
  indexArg : GoStr
  numArg : Int
  targetArg : GoStr
  lowerExtArg : Bool
  lowerArg : Bool
  upperArg : Bool
  copyArg : Bool
  dryrunArg : Bool
  forceArg : Bool
  recursiveArg : Bool

/-- Pointwise accumulation of failure counts and event traces, mirroring the
sequential increments of operationSuccessful and the order of prints. -/
def addWR (a b : Nat × List Event) : Nat × List Event := (a.1 + b.1, a.2 ++ b.2)

/-- Embeds writeFile (Renamer.go lines 160 to 202): the overwrite guard runs
first and only warns, then either the dry-run message, the copy path (create,
open, copy, any failure adding one failure unit), or the rename path. The
texts of operating-system error values are abstracted to fixed diagnostics
naming the path involved. -/
def writeFile (w : WorldOps) (cfg : Config) (oldname newname : GoStr) : Nat × List Event :=
  let g : Nat × List Event :=
    if w.lstatOk newname && !cfg.forceArg then
      (1, [Event.errMsg (("File ").toList ++ newname ++ (" already exist! Use -force to override it").toList)])
    else (0, [])
  if cfg.dryrunArg then
    (g.1, g.2 ++ [Event.outMsg (("Renaming ").toList ++ oldname ++ (" to ").toList ++ newname ++ (" (dry-run)").toList)])
  else if cfg.copyArg then
    let c1 : Nat × List Event :=
      if w.createOk newname then (0, [Event.created newname])
      else (1, [Event.errMsg (("create error ").toList ++ newname)])
    let c2 : Nat × List Event :=
      if w.openOk oldname then (0, [])
      else (1, [Event.errMsg (("open error ").toList ++ oldname)])
    let c3 : Nat × List Event :=
      if w.copyOk oldname newname then
        (0, [Event.copied oldname newname,
          Event.outMsg (("Copying ").toList ++ oldname ++ (" to ").toList ++ newname)])
      else
        (1, [Event.errMsg (("An error occurred during the copy of ").toList ++ oldname ++ (" to ").toList ++ newname)])
    (g.1 + c1.1 + c2.1 + c3.1, g.2 ++ c1.2 ++ c2.2 ++ c3.2)
  else
    if w.renameOk oldname newname then
      (g.1, g.2 ++ [Event.renamed oldname newname,
        Event.outMsg (("Renaming ").toList ++ oldname ++ (" to ").toList ++ newname)])
    else
      (g.1 + 1, g.2 ++ [Event.errMsg (("An error occurred during the renaming of ").toList ++ oldname ++ (" to ").toList ++ newname)])

/-- Embeds addPrefix (lines 205 to 214): for each file, writeFile to the join
of its directory with the prefix put before its base name; returns 0. -/
def addPrefix (w : WorldOps) (cfg : Config) (names : List GoStr) (pre : GoStr) :
    (Nat × List Event) × Int :=
  (names.foldl (fun acc f => addWR acc (writeFile w cfg f (goJoin (goDir f) (pre ++ goBase f)))) (0, []), 0)

/-- Embeds addSuffix (lines 216 to 226): for each file, writeFile to the join
of its directory with the suffix inserted between the extension-trimmed base
name and the extension; returns 0. -/
def addSuffix (w : WorldOps) (cfg : Config) (names : List GoStr) (suf : GoStr) :
    (Nat × List Event) × Int :=
  (names.foldl (fun acc f =>
    addWR acc (writeFile w cfg f (goJoin (goDir f) (trimSuffix (goBase f) (goExt f) ++ suf ++ goExt f)))) (0, []), 0)

/-- Embeds the loop of indexName: destination is dirname, a separator, the
configured name, the three-digit zero-padded counter, then the extension; the
counter advances by one after every file. -/
def indexLoop (w : WorldOps) (cfg : Config) (newname : GoStr) : List GoStr → Int → Nat × List Event
  | [], _ => (0, [])
  | f :: rest, count =>
    addWR (writeFile w cfg f (goDir f ++ '/' :: (newname ++ pad3 count ++ goExt f)))
      (indexLoop w cfg newname rest (count + 1))

/-- Embeds indexName (lines 229 to 239): runs the counter loop starting at
the configured number and returns 0. -/
def indexName (w : WorldOps) (cfg : Config) (names : List GoStr) (newname : GoStr) (count : Int) :
    (Nat × List Event) × Int :=
  (indexLoop w cfg newname names count, 0)

/-- Embeds lowercaseExtension (part_001 lines 242 to 252): for each file,
writeFile to the join of its directory with the extension-trimmed base name
followed by the case-folded extension; returns 0. The 2014 revision of the
file computes the same destination but omits the writeFile call. -/
def lowercaseExtension (w : WorldOps) (cfg : Config) (names : List GoStr) :
    (Nat × List Event) × Int :=
  (names.foldl (fun acc f =>
    addWR acc (writeFile w cfg f
      (goJoin (goDir f) (trimSuffix (goBase f) (goExt f) ++ toLowerStr (trimSuffix (goExt f) (goBase f)))))) (0, []), 0)

/-- Embeds lowercaseFiles (lines 254 to 263): writeFile to the join of the
directory with the case-folded base name; returns 0. -/
def lowercaseFiles (w : WorldOps) (cfg : Config) (names : List GoStr) :
    (Nat × List Event) × Int :=
  (names.foldl (fun acc f => addWR acc (writeFile w cfg f (goJoin (goDir f) (toLowerStr (goBase f))))) (0, []), 0)

/-- Embeds uppercaseFiles (lines 265 to 274): writeFile to the join of the
directory with the upper-cased base name; returns 0. -/
def uppercaseFiles (w : WorldOps) (cfg : Config) (names : List GoStr) :
    (Nat × List Event) × Int :=
  (names.foldl (fun acc f => addWR acc (writeFile w cfg f (goJoin (goDir f) (toUpperStr (goBase f))))) (0, []), 0)

/-- Embeds the recursive-expansion loop of renameFiles (lines 334 to 352).
The Go loop is a for-range over the directory slice that appends newly
discovered directories to the same slice; since for-range evaluates the range
expression once at loop entry, only the directories present at entry are
listed, which this fold reproduces. Each listing is recorded as an event. -/
def expandStep (fs : FS) (cfg : Config) (dir files : List GoStr) :
    (List GoStr × List GoStr) × List Event :=
  if cfg.recursiveArg then
    (dir.foldl (fun acc d => (acc.1 ++ (fs.list d).1, acc.2 ++ (fs.list d).2)) (dir, files),
      dir.map Event.listed)
  else ((dir, files), [])

/-- Embeds the matching loop of renameFiles (part_001 lines 355 to 372): for
each file the pattern is compiled afresh, and a failed compilation takes the
printUsage path (none). In the current revision the MatchString-and-append
block sits inside the err branch, after its return statement, so it is
unreachable: a successful compilation inspects no base name and appends
nothing, and the loop always yields the empty match list. (The 2014 revision
had the block in a live else branch, but that revision does not compile.)
With an empty file list the pattern is never compiled at all. -/
def matchLoop (compile : GoStr → Option (GoStr → Bool)) (pat : GoStr) :
    List GoStr → Option (List GoStr)
  | [] => some []
  | _ :: rest =>
    match compile pat with
    | none => none
    | some _ => matchLoop compile pat rest

/-- Usage message printed when the pattern fails to compile. -/
def invalidRegexpUsage : GoStr :=
  ("You must give a valid regexp (or none, to operate on all files). Alternatively, add -force to force renaming all files, whether they match the regexp or not").toList

/-- Embeds the candidate-selection part of renameFiles (lines 355 to 388):
run the matching loop when a pattern was given; on compile failure abort via
printUsage; when at least one file matched, the matches replace the file
list; when none matched and a pattern was given, force keeps the original
list with a notice while its absence returns 1 with a diagnostic. -/
def selectFiles (compile : GoStr → Option (GoStr → Bool)) (cfg : Config) (files : List GoStr) :
    Except (List Event × Outcome) (List GoStr × List Event) :=
  match (if cfg.regexpArg.isEmpty then some [] else matchLoop compile cfg.regexpArg files) with
  | none =>
    Except.error ([Event.errMsg (("Invalid regexp: ").toList ++ cfg.regexpArg)],
      Outcome.usage invalidRegexpUsage)
  | some matchingfiles =>
    if matchingfiles.length ≥ 1 then Except.ok (matchingfiles, [])
    else if !cfg.regexpArg.isEmpty then
      (if cfg.forceArg then
        Except.ok (files, [Event.outMsg (("No files matched, including all files anyway (-force enabled)").toList)])
      else
        Except.error ([Event.errMsg (("No files matched, check the correctness of your regexp").toList)],
          Outcome.normal 1))
    else Except.ok (files, [])

/-- Usage message of the mutual-exclusion check for the two case flags. -/
def bothCaseMsg : GoStr :=
  ("Can\x27t use both lowercase and uppercase, choose one only!").toList

/-- Embeds the transformer dispatch of renameFiles (lines 390 to 414): the
prefix, suffix and index transformers run first, each overwriting the result
variable; then the lowercase and uppercase flags together take the printUsage
path; otherwise the lower-extension, lowercase and uppercase transformers
run, and the last result (0 initially) is returned. -/
def transformStage (w : WorldOps) (cfg : Config) (files : List GoStr) : RunResult :=
  let s0 : (Nat × List Event) × Int := ((0, []), 0)
  let s1 := if cfg.prefixArg.isEmpty then s0 else
    let t := addPrefix w cfg files cfg.prefixArg
    (addWR s0.1 t.1, t.2)
  let s2 := if cfg.suffixArg.isEmpty then s1 else
    let t := addSuffix w cfg files cfg.suffixArg
    (addWR s1.1 t.1, t.2)
  let s3 := if cfg.indexArg.isEmpty then s2 else
    let t := indexName w cfg files cfg.indexArg cfg.numArg
    (addWR s2.1 t.1, t.2)
  if cfg.lowerArg && cfg.upperArg then
    ⟨s3.1.2, s3.1.1, Outcome.usage bothCaseMsg⟩
  else
    let s4 := if cfg.lowerExtArg then
      let t := lowercaseExtension w cfg files
      (addWR s3.1 t.1, t.2)
    else s3
    let s5 := if cfg.lowerArg then
      let t := lowercaseFiles w cfg files
      (addWR s4.1 t.1, t.2)
    else s4
    let s6 := if cfg.upperArg then
      let t := uppercaseFiles w cfg files
      (addWR s5.1 t.1, t.2)
    else s5
    ⟨s6.1.2, s6.1.1, Outcome.normal s6.2⟩

/-- Embeds renameFiles (lines 327 to 415) as the composition of the
recursive-expansion step, the candidate-selection step and the transformer
dispatch, accumulating the event traces in program order. -/
def renameFiles (fs : FS) (w : WorldOps) (compile : GoStr → Option (GoStr → Bool))
    (cfg : Config) (dir files : List GoStr) : RunResult :=
  let exp := expandStep fs cfg dir files
  match selectFiles compile cfg exp.1.2 with
  | Except.error (evs, out) => ⟨exp.2 ++ evs, 0, out⟩
  | Except.ok (files3, evs) =>
    let t := transformStage w cfg files3
    ⟨exp.2 ++ evs ++ t.events, t.failures, t.outcome⟩

/-- Embeds the validation at the end of flagsInit (part_001 lines 154 to
156): the run is rejected when the regexp argument and every transformation
flag are unset; note that a non-empty regexp argument alone passes. -/
def flagsInitRejects (cfg : Config) : Bool :=
  cfg.regexpArg.isEmpty && cfg.prefixArg.isEmpty && cfg.suffixArg.isEmpty &&
  cfg.indexArg.isEmpty && !cfg.lowerExtArg && !cfg.lowerArg && !cfg.upperArg

/-- Embeds main (lines 417 to 433): flag validation first (printUsage on
failure), then the single listing of the target directory, then renameFiles
on its two slices. -/
def mainRun (fs : FS) (w : WorldOps) (compile : GoStr → Option (GoStr → Bool))
    (cfg : Config) : RunResult :=
  if flagsInitRejects cfg then
    ⟨[], 0, Outcome.usage (("At least one of the mandatory actions must be given, nothing to do...").toList)⟩
  else
    let df := fs.list cfg.targetArg
    let r := renameFiles fs w compile cfg df.1 df.2
    ⟨Event.listed cfg.targetArg :: r.events, r.failures, r.outcome⟩

/-- Embeds the final check of main (lines 427 to 432): the run reports
success exactly when the renameFiles return value and the process-wide
failure counter are both zero. -/
def finalMessageOk (successRename : Int) (operationFailures : Nat) : Bool :=
  successRename == 0 && operationFailures == 0

/-- Files reachable from a directory by repeatedly descending into
sub-directories, bounded by a fuel argument that dominates the tree depth. -/
def reachableFiles (fs : FS) : Nat → GoStr → List GoStr
  | 0, _ => []
  | n + 1, d => (fs.list d).2 ++ (fs.list d).1.flatMap (reachableFiles fs n)

/-- A plain path segment: non-empty, free of separators, and neither the dot
nor the dotdot segment. -/
def plainSeg (s : GoStr) : Bool :=
  decide (s ≠ [] ∧ (∀ c ∈ s, c ≠ '/') ∧ s ≠ ['.'] ∧ s ≠ ['.', '.'])

/-- A clean absolute directory below the root: a separator followed by at
least one plain segment, with single separators between segments and no
trailing separator. Paths produced by the traversal have this shape. -/
def cleanAbsDir : GoStr → Bool
  | [] => false
  | c :: rest => c == '/' && !rest.isEmpty && (splitSeg rest).all plainSeg

/-- World oracle in which the destination never pre-exists and every
primitive succeeds. -/
def wAllOk : WorldOps :=
  ⟨fun _ => false, fun _ => true, fun _ => true, fun _ _ => true, fun _ _ => true⟩

/-- World oracle in which every destination already exists and every
primitive succeeds. -/
def wEx : WorldOps :=
  ⟨fun _ => true, fun _ => true, fun _ => true, fun _ _ => true, fun _ _ => true⟩

/-- Regexp engine oracle for which every pattern compiles and matches every
base name. -/
def compAll : GoStr → Option (GoStr → Bool) := fun _ => some (fun _ => true)

/-- Regexp engine oracle for which no pattern compiles. -/
def compNone : GoStr → Option (GoStr → Bool) := fun _ => none

/-- Matcher accepting exactly the base name of the first sample file. -/
def reA : GoStr → Bool := fun s => s == ("a.txt").toList

/-- Regexp engine oracle compiling every pattern to the sample matcher. -/
def compA : GoStr → Option (GoStr → Bool) := fun _ => some reA

/-- Default configuration: every flag at its zero value, the start number 1,
the target the current directory, as in flagsInit. -/
def cfg0 : Config :=
  ⟨[], [], [], [], 1, (".").toList, false, false, false, false, false, false, false⟩

/-- Filesystem with one file under the default target directory. -/
def fsOne : FS :=
  ⟨fun d => if d = (".").toList then ([], [("/t/a").toList]) else ([], [])⟩

/-- Filesystem on which every directory is empty. -/
def fsEmpty : FS := ⟨fun _ => ([], [])⟩

/-- Three-level filesystem: the root holds one file and one sub-directory,
which holds one file and one sub-sub-directory, which holds one file. -/
def fsDeep : FS :=
  ⟨fun d =>
    if d = ("/r").toList then ([("/r/a").toList], [("/r/f1").toList])
    else if d = ("/r/a").toList then ([("/r/a/b").toList], [("/r/a/f2").toList])
    else if d = ("/r/a/b").toList then ([], [("/r/a/b/f3").toList])
    else ([], [])⟩

/-- Configuration with only the recursive flag set. -/
def cfgRec : Config := { cfg0 with recursiveArg := true }

/-- Configuration with only the regexp filter set and no transformation
flag. -/
def cfgRegexOnly : Config := { cfg0 with regexpArg := (".*").toList }

/-- Configuration with only the prefix transformer set. -/
def cfgPre : Config := { cfg0 with prefixArg := ("x").toList }

/-- Configuration with a pattern that does not compile, force set, and the
prefix transformer set. -/
def cfgBadRe : Config :=
  { cfg0 with regexpArg := ("(").toList, forceArg := true, prefixArg := ("x").toList }

/-- Configuration with the prefix transformer and both mutually exclusive
case flags set. -/
def cfgLU : Config :=
  { cfg0 with prefixArg := ("x").toList, lowerArg := true, upperArg := true }

/-- Configuration with the dry-run flag set and the prefix transformer
selected; force is unset. -/
def cfgDry : Config := { cfg0 with dryrunArg := true, prefixArg := ("x").toList }

/-- Configuration with a valid pattern argument and no other flag. -/
def cfgRx : Config := { cfg0 with regexpArg := ("a").toList }

theorem addWR_nil (x : Nat × List Event) : addWR (0, []) x = x := by
  cases x; simp [addWR]

theorem splitSeg_ne_nil (s : GoStr) : splitSeg s ≠ [] := by
  induction s with
  | nil => simp [splitSeg]
  | cons c r ih =>
    simp only [splitSeg]
    split
    · simp
    · cases h : splitSeg r with
      | nil => exact absurd h ih
      | cons a as => simp

theorem splitSeg_cons_sep (xs : GoStr) : splitSeg ('/' :: xs) = [] :: splitSeg xs := by
  simp [splitSeg]

theorem splitSeg_cons_nosep (c : Char) (r : GoStr) (hc : c ≠ '/') :
    splitSeg (c :: r) =
      match splitSeg r with
      | [] => [[c]]
      | s :: ss => (c :: s) :: ss := by
  simp [splitSeg, hc]

theorem splitSeg_append (xs ys : GoStr) :
    splitSeg (xs ++ '/' :: ys) = splitSeg xs ++ splitSeg ys := by
  induction xs with
  | nil => simp [splitSeg]
  | cons c r ih =>
    by_cases hc : c = '/'
    · subst hc
      simp only [List.cons_append, splitSeg_cons_sep, ih]
    · cases h : splitSeg r with
      | nil => exact absurd h (splitSeg_ne_nil r)
      | cons a as =>
        rw [List.cons_append, splitSeg_cons_nosep c (r ++ '/' :: ys) hc, ih, h,
          splitSeg_cons_nosep c r hc, h]
        simp

theorem splitSeg_noSep : ∀ (s : GoStr), s ≠ [] → (∀ c ∈ s, c ≠ '/') → splitSeg s = [s] := by
  intro s
  induction s with
  | nil => intro h; exact absurd rfl h
  | cons c r ih =>
    intro _ h
    have hc : c ≠ '/' := h c (List.mem_cons_self c r)
    cases r with
    | nil => simp [splitSeg, hc]
    | cons d t =>
      have hr : splitSeg (d :: t) = [d :: t] :=
        ih (by simp) (fun x hx => h x (List.mem_cons_of_mem c hx))
      rw [splitSeg_cons_nosep c (d :: t) hc, hr]

theorem joinSegs_cons (s : GoStr) (ss : List GoStr) (h : ss ≠ []) :
    joinSegs (s :: ss) = s ++ '/' :: joinSegs ss := by
  cases ss with
  | nil => exact absurd rfl h
  | cons a as => rfl

theorem joinSegs_append2 : ∀ (ss ts : List GoStr), ss ≠ [] → ts ≠ [] →
    joinSegs (ss ++ ts) = joinSegs ss ++ '/' :: joinSegs ts := by
  intro ss
  induction ss with
  | nil => intro ts h; exact absurd rfl h
  | cons s ss ih =>
    intro ts _ hts
    cases ss with
    | nil =>
      simp only [List.nil_append, List.singleton_append]
      rw [joinSegs_cons s ts hts]
      rfl
    | cons b bs =>
      have h1 : (b :: bs) ++ ts ≠ [] := by simp
      rw [List.cons_append, joinSegs_cons s ((b :: bs) ++ ts) h1,
        joinSegs_cons s (b :: bs) (by simp), ih ts (by simp) hts, List.append_assoc]
      rfl

theorem joinSegs_splitSeg : ∀ (s : GoStr), joinSegs (splitSeg s) = s := by
  intro s
  induction s with
  | nil => rfl
  | cons c r ih =>
    by_cases hc : c = '/'
    · subst hc
      rw [splitSeg_cons_sep, joinSegs_cons [] (splitSeg r) (splitSeg_ne_nil r), ih]
      rfl
    · simp only [splitSeg, if_neg hc]
      cases h : splitSeg r with
      | nil => exact absurd h (splitSeg_ne_nil r)
      | cons a as =>
        cases as with
        | nil =>
          rw [h] at ih
          simp only [joinSegs] at ih
          simp [joinSegs, ih]
        | cons b bs =>
          rw [h] at ih
          rw [joinSegs_cons (c :: a) (b :: bs) (by simp),
            joinSegs_cons a (b :: bs) (by simp)] at *
          rw [← ih]
          rfl

theorem plainSeg_facts (s : GoStr) (h : plainSeg s = true) :
    s ≠ [] ∧ (∀ c ∈ s, c ≠ '/') ∧ s ≠ ['.'] ∧ s ≠ ['.', '.'] := of_decide_eq_true h

theorem cleanAbsDir_spec (d : GoStr) (h : cleanAbsDir d = true) :
    ∃ rest, d = '/' :: rest ∧ rest ≠ [] ∧ ∀ s ∈ splitSeg rest, plainSeg s = true := by
  cases d with
  | nil => simp [cleanAbsDir] at h
  | cons c rest =>
    simp only [cleanAbsDir, Bool.and_eq_true, List.all_eq_true, beq_iff_eq] at h
    exact ⟨rest, by rw [h.1.1], by simpa using h.1.2, h.2⟩

theorem cleanSegs_nil (rooted : Bool) (acc : List GoStr) :
    cleanSegs rooted acc [] = acc.reverse := rfl

theorem cleanSegs_cons (rooted : Bool) (acc : List GoStr) (s : GoStr) (ss : List GoStr) :
    cleanSegs rooted acc (s :: ss) =
      if s = [] ∨ s = ['.'] then cleanSegs rooted acc ss
      else if s = ['.', '.'] then
        match acc with
        | [] => if rooted then cleanSegs rooted [] ss else cleanSegs rooted [s] ss
        | t :: acc2 =>
          if t = ['.', '.'] then
            (if rooted then cleanSegs rooted acc ss else cleanSegs rooted (s :: acc) ss)
          else cleanSegs rooted acc2 ss
      else cleanSegs rooted (s :: acc) ss := rfl

theorem cleanSegs_plainOrEmpty : ∀ (ss : List GoStr) (rooted : Bool) (acc : List GoStr),
    (∀ s ∈ ss, s = [] ∨ plainSeg s = true) →
    cleanSegs rooted acc ss = acc.reverse ++ ss.filter (fun s => !s.isEmpty) := by
  intro ss
  induction ss with
  | nil => intro rooted acc _; simp [cleanSegs_nil]
  | cons s ss ih =>
    intro rooted acc h
    rcases h s (List.mem_cons_self s ss) with hs | hs
    · subst hs
      rw [cleanSegs_cons, if_pos (Or.inl rfl),
        ih rooted acc (fun x hx => h x (List.mem_cons_of_mem _ hx))]
      simp
    · obtain ⟨h1, _, h3, h4⟩ := plainSeg_facts s hs
      rw [cleanSegs_cons, if_neg (by simp [h1, h3]), if_neg h4,
        ih rooted (s :: acc) (fun x hx => h x (List.mem_cons_of_mem _ hx))]
      simp [List.filter_cons, h1, List.append_assoc]

theorem dropWhile_nosep : ∀ (xs ys : GoStr), (∀ c ∈ xs, c ≠ '/') →
    (xs ++ '/' :: ys).dropWhile (fun c => c != '/') = '/' :: ys := by
  intro xs
  induction xs with
  | nil => intro ys _; simp [List.dropWhile]
  | cons c r ih =>
    intro ys h
    have hc : c ≠ '/' := h c (List.mem_cons_self c r)
    have hcb : (c != '/') = true := by simp [hc]
    simp only [List.cons_append, List.dropWhile_cons, hcb, if_true]
    exact ih ys (fun x hx => h x (List.mem_cons_of_mem _ hx))

theorem takeWhile_nosep : ∀ (xs ys : GoStr), (∀ c ∈ xs, c ≠ '/') →
    (xs ++ '/' :: ys).takeWhile (fun c => c != '/') = xs := by
  intro xs
  induction xs with
  | nil => intro ys _; simp [List.takeWhile]
  | cons c r ih =>
    intro ys h
    have hc : c ≠ '/' := h c (List.mem_cons_self c r)
    have hcb : (c != '/') = true := by simp [hc]
    simp only [List.cons_append, List.takeWhile_cons, hcb, if_true]
    rw [ih ys (fun x hx => h x (List.mem_cons_of_mem _ hx))]

theorem goBase_append (d b : GoStr) (hb : b ≠ []) (hsep : ∀ c ∈ b, c ≠ '/') :
    goBase (d ++ '/' :: b) = b := by
  have hbrev : ∀ c ∈ b.reverse, c ≠ '/' := fun c hc => hsep c (List.mem_reverse.mp hc)
  obtain ⟨c0, rest, hc0⟩ : ∃ c0 rest, b.reverse = c0 :: rest := by
    cases hr : b.reverse with
    | nil => exact absurd (by simpa using congrArg List.reverse hr) hb
    | cons x xs => exact ⟨x, xs, rfl⟩
  have hc0ne : c0 ≠ '/' := hbrev c0 (by rw [hc0]; exact List.mem_cons_self c0 rest)
  have h1 : (d ++ '/' :: b).reverse = b.reverse ++ '/' :: d.reverse := by
    simp [List.reverse_append]
  have h2 : List.dropWhile (fun c => c == '/') (b.reverse ++ '/' :: d.reverse)
      = b.reverse ++ '/' :: d.reverse := by
    rw [hc0, List.cons_append, List.dropWhile_cons]
    simp [hc0ne]
  simp only [goBase]
  rw [if_neg (by simp), h1, h2]
  simp only [List.reverse_reverse]
  rw [takeWhile_nosep b.reverse d.reverse hbrev, List.reverse_reverse,
    if_neg (by simpa using hb)]

theorem goDir_append (d b : GoStr) (hsep : ∀ c ∈ b, c ≠ '/') :
    goDir (d ++ '/' :: b) = goClean (d ++ ['/']) := by
  have hbrev : ∀ c ∈ b.reverse, c ≠ '/' := fun c hc => hsep c (List.mem_reverse.mp hc)
  unfold goDir
  rw [show (d ++ '/' :: b).reverse = b.reverse ++ '/' :: d.reverse by simp [List.reverse_append],
    dropWhile_nosep b.reverse d.reverse hbrev]
  simp

theorem goClean_dirSlash (d : GoStr) (h : cleanAbsDir d = true) :
    goClean (d ++ ['/']) = d := by
  obtain ⟨rest, hd, hne, hplain⟩ := cleanAbsDir_spec d h
  subst hd
  have hsplit : splitSeg (rest ++ ['/']) = splitSeg rest ++ [[]] := by
    rw [show (rest ++ ['/'] : GoStr) = rest ++ '/' :: [] from rfl, splitSeg_append]
    rfl
  have hfilter : (splitSeg rest).filter (fun s => !s.isEmpty) = splitSeg rest := by
    rw [List.filter_eq_self]
    intro s hs
    simpa using (plainSeg_facts s (hplain s hs)).1
  have hplainOr : ∀ s ∈ ([] :: (splitSeg rest ++ [[]]) : List GoStr),
      s = [] ∨ plainSeg s = true := by
    intro s hs
    rcases List.mem_cons.mp hs with h1 | h1
    · exact Or.inl h1
    · rcases List.mem_append.mp h1 with h2 | h2
      · exact Or.inr (hplain s h2)
      · simp at h2; exact Or.inl h2
  have hclean : cleanSegs true [] ([] :: (splitSeg rest ++ [[]])) = splitSeg rest := by
    rw [cleanSegs_plainOrEmpty _ true [] hplainOr, List.filter_cons_of_neg (by simp),
      List.filter_append, hfilter]
    simp
  have hgoal : goClean ('/' :: (rest ++ ['/'])) = '/' :: rest := by
    simp only [goClean, splitSeg_cons_sep, hsplit, hclean, joinSegs_splitSeg]
    simp
  simpa using hgoal

theorem goClean_dirFile (d b : GoStr) (h : cleanAbsDir d = true) (hb : plainSeg b = true) :
    goClean (d ++ '/' :: b) = d ++ '/' :: b := by
  obtain ⟨rest, hd, hne, hplain⟩ := cleanAbsDir_spec d h
  obtain ⟨hb1, hb2, _, _⟩ := plainSeg_facts b hb
  subst hd
  have hsplit : splitSeg (rest ++ '/' :: b) = splitSeg rest ++ [b] := by
    rw [splitSeg_append, splitSeg_noSep b hb1 hb2]
  have hfilter : (splitSeg rest).filter (fun s => !s.isEmpty) = splitSeg rest := by
    rw [List.filter_eq_self]
    intro s hs
    simpa using (plainSeg_facts s (hplain s hs)).1
  have hfb : ((splitSeg rest ++ [b]).filter (fun s => !s.isEmpty)) = splitSeg rest ++ [b] := by
    rw [List.filter_append, hfilter]
    cases b with
    | nil => exact absurd rfl hb1
    | cons x xs => simp
  have hplainOr : ∀ s ∈ ([] :: (splitSeg rest ++ [b]) : List GoStr),
      s = [] ∨ plainSeg s = true := by
    intro s hs
    rcases List.mem_cons.mp hs with h1 | h1
    · exact Or.inl h1
    · rcases List.mem_append.mp h1 with h2 | h2
      · exact Or.inr (hplain s h2)
      · simp at h2; subst h2; exact Or.inr hb
  have hclean : cleanSegs true [] ([] :: (splitSeg rest ++ [b])) = splitSeg rest ++ [b] := by
    rw [cleanSegs_plainOrEmpty _ true [] hplainOr, List.filter_cons_of_neg (by simp), hfb]
    simp
  have hjoin : joinSegs (splitSeg rest ++ [b]) = rest ++ '/' :: b := by
    rw [joinSegs_append2 (splitSeg rest) [b] (splitSeg_ne_nil rest) (by simp), joinSegs_splitSeg]
    rfl
  have hgoal : goClean ('/' :: (rest ++ '/' :: b)) = '/' :: (rest ++ '/' :: b) := by
    simp only [goClean, splitSeg_cons_sep, hsplit, hclean, hjoin]
    simp
  simpa using hgoal

theorem goDir_clean (d b : GoStr) (h : cleanAbsDir d = true) (hsep : ∀ c ∈ b, c ≠ '/') :
    goDir (d ++ '/' :: b) = d := by
  rw [goDir_append d b hsep, goClean_dirSlash d h]

theorem goJoin_clean (d b : GoStr) (h : cleanAbsDir d = true) (hb : plainSeg b = true) :
    goJoin d b = d ++ '/' :: b := by
  obtain ⟨rest, hd, _, _⟩ := cleanAbsDir_spec d h
  unfold goJoin
  rw [if_pos (by subst hd; simp), goClean_dirFile d b h hb]

theorem extFromRev_txt (z : GoStr) :
    extFromRev ('T' :: 'X' :: 'T' :: '.' :: z) = some ((".TXT").toList) := rfl

theorem goExt_dirMyFile (d : GoStr) :
    goExt (d ++ ("/MyFile.TXT").toList) = (".TXT").toList := by
  unfold goExt
  rw [List.reverse_append,
    show (("/MyFile.TXT").toList).reverse = ("TXT.eliFyM/").toList from by decide,
    show (("TXT.eliFyM/").toList ++ d.reverse : GoStr)
      = 'T' :: 'X' :: 'T' :: '.' :: (("eliFyM/").toList ++ d.reverse) from rfl,
    extFromRev_txt]
  rfl

theorem matchLoop_never_matches (compile : GoStr → Option (GoStr → Bool)) (pat : GoStr) :
    ∀ L : List GoStr, matchLoop compile pat L = some [] ∨ matchLoop compile pat L = none := by
  intro L
  induction L with
  | nil => exact Or.inl rfl
  | cons f rest ih =>
    cases h : compile pat with
    | none => exact Or.inr (by simp [matchLoop, h])
    | some re => simpa [matchLoop, h] using ih

theorem expandStep_events (fs : FS) (cfg : Config) (dir files : List GoStr) :
    ∀ e ∈ (expandStep fs cfg dir files).2, isMutation e = false := by
  intro e he
  unfold expandStep at he
  split at he
  · simp only [List.mem_map] at he
    obtain ⟨d, _, rfl⟩ := he
    rfl
  · simp at he

theorem expandStep_not_recursive (fs : FS) (cfg : Config) (dir files : List GoStr)
    (h : cfg.recursiveArg = false) :
    expandStep fs cfg dir files = ((dir, files), []) := by
  simp [expandStep, h]

theorem transformStage_code (w : WorldOps) (cfg : Config) (files : List GoStr) :
    (transformStage w cfg files).outcome = Outcome.usage bothCaseMsg ∨
    (transformStage w cfg files).outcome = Outcome.normal 0 := by
  simp only [transformStage, addPrefix, addSuffix, indexName, lowercaseExtension,
    lowercaseFiles, uppercaseFiles]
  split
  · exact Or.inl rfl
  · right
    split <;> split <;> split <;> split <;> split <;> split <;> rfl

theorem transformStage_both_case (w : WorldOps) (cfg : Config) (files : List GoStr)
    (hl : cfg.lowerArg = true) (hu : cfg.upperArg = true) :
    (transformStage w cfg files).outcome = Outcome.usage bothCaseMsg := by
  simp only [transformStage, hl, hu, Bool.and_self, if_true]

/-- Claim C1: the spec says a recursive traversal reaches every file at any
depth by repeatedly listing newly discovered directories. The embedded loop
(faithful to the for-range slice capture) discovers the depth-two directory
/r/a/b and appends it, yet never lists it, so the reachable file /r/a/b/f3
is missing from the produced file list while /r/f1 and /r/a/f2 are present;
the claim describes the documented intent and the code drops deeper files. -/
theorem c1_code_bug :
    ("/r/a/b/f3").toList ∈ reachableFiles fsDeep 3 (("/r").toList) ∧
    (expandStep fsDeep cfgRec (fsDeep.list (("/r").toList)).1 (fsDeep.list (("/r").toList)).2).1.2
      = [("/r/f1").toList, ("/r/a/f2").toList] ∧
    ("/r/a/b/f3").toList ∉
      (expandStep fsDeep cfgRec (fsDeep.list (("/r").toList)).1 (fsDeep.list (("/r").toList)).2).1.2 ∧
    ("/r/a/b").toList ∈
      (expandStep fsDeep cfgRec (fsDeep.list (("/r").toList)).1 (fsDeep.list (("/r").toList)).2).1.1 := by
  decide

/-- Claim C5: the spec says a configuration with no transformation flag is
rejected with a usage diagnostic before any traversal, regardless of the
regexp filter. The embedded flagsInit validation counts a non-empty regexp
argument among the mandatory actions, so a regexp-only run passes
validation and performs the traversal listing; it then dies on the
no-files-matched path of the dead-code matcher with a normal return of 1,
never through any usage rejection. -/
theorem c5_code_bug :
    flagsInitRejects cfgRegexOnly = false ∧
    Event.listed ((".").toList) ∈ (mainRun fsOne wAllOk compAll cfgRegexOnly).events ∧
    (mainRun fsOne wAllOk compAll cfgRegexOnly).outcome = Outcome.normal 1 ∧
    ∀ m : GoStr, (mainRun fsOne wAllOk compAll cfgRegexOnly).outcome ≠ Outcome.usage m := by
  refine ⟨by decide, by decide, by decide, ?_⟩
  intro m h
  rw [show (mainRun fsOne wAllOk compAll cfgRegexOnly).outcome = Outcome.normal 1 from by decide]
    at h
  exact Outcome.noConfusion h

/-- Claim C8: the index transformer numbers the files in list order starting
at the configured value, zero-padded to three digits, keeping each extension
and never resetting: the loop equation shows file one uses the current
counter and the rest continue from its successor, and the run on a.txt,
b.txt, c.txt with name img and start 5 renames them to img005.txt,
img006.txt, img007.txt in that order. -/
theorem c8_theorem :
    (∀ (w : WorldOps) (cfg : Config) (nm f : GoStr) (rest : List GoStr) (c : Int),
      indexName w cfg (f :: rest) nm c
        = (addWR (writeFile w cfg f (goDir f ++ '/' :: (nm ++ pad3 c ++ goExt f)))
            (indexLoop w cfg nm rest (c + 1)), 0)) ∧
    (indexName wAllOk cfg0
        [("/t/a.txt").toList, ("/t/b.txt").toList, ("/t/c.txt").toList] (("img").toList) 5).1.2
      = [Event.renamed (("/t/a.txt").toList) (("/t/img005.txt").toList),
         Event.outMsg (("Renaming /t/a.txt to /t/img005.txt").toList),
         Event.renamed (("/t/b.txt").toList) (("/t/img006.txt").toList),
         Event.outMsg (("Renaming /t/b.txt to /t/img006.txt").toList),
         Event.renamed (("/t/c.txt").toList) (("/t/img007.txt").toList),
         Event.outMsg (("Renaming /t/c.txt to /t/img007.txt").toList)] :=
  ⟨fun _ _ _ _ _ _ => rfl, by decide⟩

/-- Claim C2: for a file with base name MyFile.TXT in any clean absolute
directory, the lowercase-extension transformer produces the pair mapping it
to MyFile.txt in the same directory and passes exactly that pair to the
apply step, like every other transformer. -/
theorem c2_theorem (w : WorldOps) (cfg : Config) (d : GoStr) (h : cleanAbsDir d = true) :
    lowercaseExtension w cfg [d ++ ("/MyFile.TXT").toList]
      = (writeFile w cfg (d ++ ("/MyFile.TXT").toList) (d ++ ("/MyFile.txt").toList), 0) ∧
    goBase (d ++ ("/MyFile.txt").toList) = ("MyFile.txt").toList ∧
    goDir (d ++ ("/MyFile.txt").toList) = goDir (d ++ ("/MyFile.TXT").toList) := by
  have hTXT : (d ++ ("/MyFile.TXT").toList : GoStr) = d ++ '/' :: ("MyFile.TXT").toList := rfl
  have htxt : (d ++ ("/MyFile.txt").toList : GoStr) = d ++ '/' :: ("MyFile.txt").toList := rfl
  have hsepT : ∀ c ∈ (("MyFile.TXT").toList : GoStr), c ≠ '/' := by decide
  have hsept : ∀ c ∈ (("MyFile.txt").toList : GoStr), c ≠ '/' := by decide
  have hbase : goBase (d ++ ("/MyFile.TXT").toList) = ("MyFile.TXT").toList := by
    rw [hTXT]; exact goBase_append d _ (by decide) hsepT
  have hext := goExt_dirMyFile d
  have hdir : goDir (d ++ ("/MyFile.TXT").toList) = d := by
    rw [hTXT]; exact goDir_clean d _ h hsepT
  have hdir2 : goDir (d ++ ("/MyFile.txt").toList) = d := by
    rw [htxt]; exact goDir_clean d _ h hsept
  refine ⟨?_, ?_, ?_⟩
  · simp only [lowercaseExtension, List.foldl_cons, List.foldl_nil, addWR_nil]
    rw [hdir, hbase, hext,
      show trimSuffix (("MyFile.TXT").toList) ((".TXT").toList)
          ++ toLowerStr (trimSuffix ((".TXT").toList) (("MyFile.TXT").toList))
        = ("MyFile.txt").toList from by decide,
      goJoin_clean d _ h (by decide), ← htxt]
  · rw [htxt]; exact goBase_append d _ (by decide) hsept
  · rw [hdir, hdir2]

/-- Witness for claim C2 at the concrete directory /tmp. -/
theorem c2_witness :
    cleanAbsDir (("/tmp").toList) = true ∧
    lowercaseExtension wAllOk cfg0 [("/tmp/MyFile.TXT").toList]
      = (writeFile wAllOk cfg0 (("/tmp/MyFile.TXT").toList) (("/tmp/MyFile.txt").toList), 0) := by
  refine ⟨by decide, ?_⟩
  have h := (c2_theorem wAllOk cfg0 (("/tmp").toList) (by decide)).1
  have e1 : ((("/tmp").toList : GoStr) ++ ("/MyFile.TXT").toList) = ("/tmp/MyFile.TXT").toList := by
    decide
  have e2 : ((("/tmp").toList : GoStr) ++ ("/MyFile.txt").toList) = ("/tmp/MyFile.txt").toList := by
    decide
  rw [e1, e2] at h
  exact h

/-- Claim C3: the spec says the matcher keeps exactly the files whose base
names satisfy the pattern and that matches replace the candidate list. In
the current revision the MatchString-and-append block is dead code behind
the return in the err branch, so for every engine, pattern and file list the
loop yields the empty match list or aborts; concretely, with a valid pattern
that the base name a.txt satisfies and force unset, the run still prints the
no-files-matched diagnostic and returns 1, renaming nothing. The claim
matches the README, the usage text and the declared purpose of
matchingfiles, so the dead code is a defect of the program. -/
theorem c3_code_bug :
    (∀ (compile : GoStr → Option (GoStr → Bool)) (pat : GoStr) (L : List GoStr),
      matchLoop compile pat L = some [] ∨ matchLoop compile pat L = none) ∧
    reA (goBase (("/t/a.txt").toList)) = true ∧
    renameFiles fsOne wAllOk compA cfgRx [] [("/t/a.txt").toList, ("/t/b.txt").toList]
      = ⟨[Event.errMsg (("No files matched, check the correctness of your regexp").toList)], 0,
          Outcome.normal 1⟩ :=
  ⟨fun compile pat L => matchLoop_never_matches compile pat L, by decide, by decide⟩

/-- Counterexample to claim C4: with lowercase, uppercase and a prefix all
set, the run lists the target directory and renames a file through the
prefix transformer before the mutual-exclusion violation takes the usage
path, so the violation is not detected before traversal or transformation
and a file is touched. -/
theorem c4_counterexample :
    cfgLU.lowerArg = true ∧ cfgLU.upperArg = true ∧
    (mainRun fsOne wAllOk compAll cfgLU).outcome = Outcome.usage bothCaseMsg ∧
    Event.renamed (("/t/a").toList) (("/t/xa").toList)
      ∈ (mainRun fsOne wAllOk compAll cfgLU).events ∧
    Event.listed ((".").toList) ∈ (mainRun fsOne wAllOk compAll cfgLU).events := by
  decide

/-- Claim C4 amended: when both case flags are set and the run reaches the
transformer dispatch (the candidate selection step succeeded), renameFiles
ends on the usage path with the mutual-exclusion message; the check runs
inside the dispatch, after traversal, matching and the prefix, suffix and
index transformers, so those effects may already have happened. -/
theorem c4_theorem (fs : FS) (w : WorldOps) (compile : GoStr → Option (GoStr → Bool))
    (cfg : Config) (dir files g : List GoStr) (evs : List Event)
    (hl : cfg.lowerArg = true) (hu : cfg.upperArg = true)
    (hok : selectFiles compile cfg (expandStep fs cfg dir files).1.2 = Except.ok (g, evs)) :
    (renameFiles fs w compile cfg dir files).outcome = Outcome.usage bothCaseMsg := by
  simp only [renameFiles, hok]
  exact transformStage_both_case w cfg g hl hu

/-- Witness for the amended claim C4 at a concrete run. -/
theorem c4_witness :
    (renameFiles fsOne wAllOk compAll cfgLU [] [("/t/a").toList]).outcome
      = Outcome.usage bothCaseMsg :=
  c4_theorem fsOne wAllOk compAll cfgLU [] [("/t/a").toList] [("/t/a").toList] []
    rfl rfl rfl

/-- Counterexample to claim C6: with a pattern that does not compile, an
empty candidate list and force set, the run never compiles the pattern (the
compilation happens inside the per-file loop), ends normally with code 0 and
never emits the invalid-regexp diagnostic, so an invalid pattern is not a
fatal configuration error for every candidate list. -/
theorem c6_counterexample :
    compNone cfgBadRe.regexpArg = none ∧ cfgBadRe.regexpArg ≠ [] ∧
    (mainRun fsEmpty wAllOk compNone cfgBadRe).outcome = Outcome.normal 0 ∧
    ∀ e ∈ (mainRun fsEmpty wAllOk compNone cfgBadRe).events,
      e ≠ Event.errMsg (("Invalid regexp: ").toList ++ cfgBadRe.regexpArg) := by
  exact ⟨rfl, by decide, by decide, by decide⟩

/-- Claim C6 amended: a non-empty pattern that fails to compile aborts the
run with the invalid-regexp diagnostic and the usage exit, with no per-file
failure and no mutation, whenever the post-traversal candidate list is
non-empty; with an empty candidate list the pattern is never compiled. -/
theorem c6_theorem (fs : FS) (w : WorldOps) (compile : GoStr → Option (GoStr → Bool))
    (cfg : Config) (dir files : List GoStr)
    (h1 : cfg.regexpArg ≠ []) (h2 : compile cfg.regexpArg = none)
    (h3 : (expandStep fs cfg dir files).1.2 ≠ []) :
    (renameFiles fs w compile cfg dir files).outcome = Outcome.usage invalidRegexpUsage ∧
    (renameFiles fs w compile cfg dir files).failures = 0 ∧
    ∀ e ∈ (renameFiles fs w compile cfg dir files).events, isMutation e = false := by
  have hempty : cfg.regexpArg.isEmpty = false := by
    cases hx : cfg.regexpArg with
    | nil => exact absurd hx h1
    | cons a as => rfl
  have hml : matchLoop compile cfg.regexpArg ((expandStep fs cfg dir files).1.2) = none := by
    cases hx : (expandStep fs cfg dir files).1.2 with
    | nil => exact absurd hx h3
    | cons a l => simp [matchLoop, h2]
  have hscrut : (if cfg.regexpArg.isEmpty then some []
      else matchLoop compile cfg.regexpArg ((expandStep fs cfg dir files).1.2)) = none := by
    rw [hempty, if_neg (by simp), hml]
  have hsel : selectFiles compile cfg ((expandStep fs cfg dir files).1.2)
      = Except.error ([Event.errMsg (("Invalid regexp: ").toList ++ cfg.regexpArg)],
          Outcome.usage invalidRegexpUsage) := by
    simp only [selectFiles, hscrut]
  simp only [renameFiles, hsel]
  refine ⟨trivial, trivial, ?_⟩
  intro e he
  rcases List.mem_append.mp he with hA | hB
  · exact expandStep_events fs cfg dir files e hA
  · simp only [List.mem_singleton] at hB
    subst hB
    rfl

/-- Witness for the amended claim C6 at a concrete run with one file. -/
theorem c6_witness :
    (renameFiles fsEmpty wAllOk compNone cfgBadRe [] [("/t/a").toList]).outcome
      = Outcome.usage invalidRegexpUsage :=
  (c6_theorem fsEmpty wAllOk compNone cfgBadRe [] [("/t/a").toList]
    (by decide) rfl (by decide)).1

/-- Claim C7: when the destination exists and force is unset, the apply call
adds at least one failure unit and emits the diagnostic naming the
destination, and in rename mode (not dry-run, not copy) the guard does not
block the attempt: either the rename mutation or the rename-failure
diagnostic still appears; when force is set, the result is independent of
whether the destination pre-exists. -/
theorem c7_theorem (w : WorldOps) (cfg : Config) (o n : GoStr) :
    (w.lstatOk n = true → cfg.forceArg = false →
      1 ≤ (writeFile w cfg o n).1 ∧
      Event.errMsg (("File ").toList ++ n ++ (" already exist! Use -force to override it").toList)
        ∈ (writeFile w cfg o n).2 ∧
      (cfg.dryrunArg = false → cfg.copyArg = false →
        (Event.renamed o n ∈ (writeFile w cfg o n).2 ∨
         Event.errMsg (("An error occurred during the renaming of ").toList ++ o ++ (" to ").toList ++ n)
           ∈ (writeFile w cfg o n).2))) ∧
    (cfg.forceArg = true → ∀ e2 : GoStr → Bool,
      writeFile ⟨e2, w.createOk, w.openOk, w.copyOk, w.renameOk⟩ cfg o n = writeFile w cfg o n) := by
  constructor
  · intro hex hforce
    cases hdry : cfg.dryrunArg <;> cases hcopy : cfg.copyArg <;>
      cases hcr : w.createOk n <;> cases hop : w.openOk o <;>
      cases hcp : w.copyOk o n <;> cases hrn : w.renameOk o n <;>
      simp [writeFile, hex, hforce, hdry, hcopy, hcr, hop, hcp, hrn]
  · intro hforce e2
    simp [writeFile, hforce]

/-- Witness for claim C7 at a concrete world where the destination exists. -/
theorem c7_witness :
    1 ≤ (writeFile wEx cfg0 (("/t/a").toList) (("/t/b").toList)).1 :=
  (((c7_theorem wEx cfg0 (("/t/a").toList) (("/t/b").toList)).1) rfl rfl).1

/-- Counterexample to claim C9: an apply call with dry-run set still records
one failure unit when the destination exists and force is unset, because the
overwrite guard runs before the dry-run branch; the claim says no failure
unit is recorded for a dry-run call. -/
theorem c9_counterexample :
    cfgDry.dryrunArg = true ∧
    (writeFile wEx cfgDry (("/t/a").toList) (("/t/b").toList)).1 ≠ 0 :=
  ⟨rfl, by decide⟩

/-- Claim C9 amended: a dry-run apply call emits the informational dry-run
message and performs no filesystem mutation, and the dry-run branch itself
records no failure; the only failure it can report is the one unit from the
overwrite guard, recorded exactly when the destination exists and force is
unset. -/
theorem c9_theorem (w : WorldOps) (cfg : Config) (o n : GoStr) (h : cfg.dryrunArg = true) :
    (∀ e ∈ (writeFile w cfg o n).2, isMutation e = false) ∧
    Event.outMsg (("Renaming ").toList ++ o ++ (" to ").toList ++ n ++ (" (dry-run)").toList)
      ∈ (writeFile w cfg o n).2 ∧
    (writeFile w cfg o n).1 = (if w.lstatOk n && !cfg.forceArg then 1 else 0) := by
  cases hex : (w.lstatOk n && !cfg.forceArg) <;>
    simp [writeFile, h, hex, isMutation]

/-- Witness for the amended claim C9 at a concrete dry-run call. -/
theorem c9_witness :
    Event.outMsg (("Renaming /t/a to /t/b (dry-run)").toList)
      ∈ (writeFile wAllOk cfgDry (("/t/a").toList) (("/t/b").toList)).2 := by
  have h := (c9_theorem wAllOk cfgDry (("/t/a").toList) (("/t/b").toList) rfl).2.1
  have e : (("Renaming ").toList ++ ("/t/a").toList ++ (" to ").toList ++ ("/t/b").toList
      ++ (" (dry-run)").toList : GoStr) = ("Renaming /t/a to /t/b (dry-run)").toList := by
    decide
  rw [e] at h
  exact h

/-- Claim C10: every transformer returns 0 on every input, so once the
candidate selection step succeeds, any normal return of renameFiles carries
code 0, and the final verdict of main reduces to whether the failure counter
is zero. -/
theorem c10_theorem (fs : FS) (w : WorldOps) (compile : GoStr → Option (GoStr → Bool))
    (cfg : Config) (dir files g : List GoStr) (evs : List Event)
    (hok : selectFiles compile cfg (expandStep fs cfg dir files).1.2 = Except.ok (g, evs)) :
    (∀ names pre, (addPrefix w cfg names pre).2 = 0) ∧
    (∀ names suf, (addSuffix w cfg names suf).2 = 0) ∧
    (∀ names nm c, (indexName w cfg names nm c).2 = 0) ∧
    (∀ names, (lowercaseExtension w cfg names).2 = 0) ∧
    (∀ names, (lowercaseFiles w cfg names).2 = 0) ∧
    (∀ names, (uppercaseFiles w cfg names).2 = 0) ∧
    (∀ c : Int, (renameFiles fs w compile cfg dir files).outcome = Outcome.normal c → c = 0) ∧
    (∀ k : Nat, finalMessageOk 0 k = true ↔ k = 0) := by
  refine ⟨fun _ _ => rfl, fun _ _ => rfl, fun _ _ _ => rfl, fun _ => rfl, fun _ => rfl,
    fun _ => rfl, ?_, ?_⟩
  · intro c hc
    simp only [renameFiles, hok] at hc
    rcases transformStage_code w cfg g with hcase | hcase
    · rw [hcase] at hc
      exact absurd hc (by simp)
    · rw [hcase] at hc
      exact (Outcome.normal.inj hc).symm
  · intro k
    simp [finalMessageOk]

/-- Witness for claim C10 at a concrete run reaching the transformers. -/
theorem c10_witness :
    (addPrefix wAllOk cfgPre [("/t/a").toList] (("x").toList)).2 = 0 := by
  have h := c10_theorem fsOne wAllOk compAll cfgPre [] [("/t/a").toList] [("/t/a").toList] [] rfl
  exact h.1 [("/t/a").toList] (("x").toList)
